import Mathlib

/-!
A shallow embedding of the `ergo` structured-error library (`errors.go`)
and proofs of its specified properties.

Modelling conventions:
* Values of Go type `interface` stored in `Info` are modelled by the inductive
  `Val` (strings and integers, the shapes exercised by the library and its
  tests).
* Go maps (`ErrInfo`, the domain registry, `DomainMap`) are modelled as
  association lists with overwrite-on-insert; the map rendering of the Go
  `fmt` package sorts keys, matching its deterministic map printing.
* A Go panic (failed type assertion, template-execution error, domain
  collision) is modelled as `Option.none`.
* The two external capabilities — `runtime` stack capture and
  `text/template` execution — are parameters (`stackTrace`, `render`):
  the library only consumes them through their result strings.
-/

namespace Ergo

/-- A dynamically typed value stored in an `ErrInfo` map
(Go `interface{}`). -/
inductive Val where
  | str (s : String)
  | int (n : Int)
deriving DecidableEq, Repr

/-- The rendering of a `Val` by the `v` verb of the Go `fmt` package. -/
def fmtVal : Val → String
  | .str s => s
  | .int n => toString n

/-- Go declaration `type ErrCode int`. -/
abbrev ErrCode := Int

/-- Go declaration `type ErrInfo map` from strings to values, as an
association list with unique keys maintained by `infoInsert`. -/
abbrev ErrInfo := List (String × Val)

/-- Map lookup `info[k]`. -/
def infoLookup : ErrInfo → String → Option Val
  | [], _ => none
  | (k', v') :: rest, k => if k' = k then some v' else infoLookup rest k

/-- Map write `info[k] = v`: overwrite an existing key, else append. -/
def infoInsert : ErrInfo → String → Val → ErrInfo
  | [], k, v => [(k, v)]
  | (k', v') :: rest, k, v =>
      if k' = k then (k, v) :: rest else (k', v') :: infoInsert rest k v

/-- Insert one key/value pair into a key-sorted association list. -/
def insertSorted (p : String × Val) : List (String × Val) → List (String × Val)
  | [] => [p]
  | q :: qs => if p.1 ≤ q.1 then p :: q :: qs else q :: insertSorted p qs

/-- Sort an association list by key (insertion sort), as the Go `fmt` package does
before printing a map. -/
def sortByKey (l : List (String × Val)) : List (String × Val) :=
  l.foldr insertSorted []

/-- Join a list of strings with a separator (used to state the chain-rendering layout). -/
def joinSep (sep : String) : List String → String
  | [] => ""
  | [s] => s
  | s :: rest => s ++ sep ++ joinSep sep rest

/-- The rendering of an `ErrInfo` map by the `v` verb of `fmt`:
`map[k1:v1 k2:v2]` with keys sorted. -/
def fmtInfo (i : ErrInfo) : String :=
  "map[" ++ joinSep " " ((sortByKey i).map fun p => p.1 ++ ":" ++ fmtVal p.2) ++ "]"

/-- The central `Error` record: domain, code, info, captured stack
context, and an optional inner (causative) error. -/
inductive Error where
  | mk (dom : String) (code : ErrCode) (info : ErrInfo) (ctx : String)
       (inner : Option Error)
deriving Repr

/-- Field accessor for `Error.Domain`. -/
def Error.Domain : Error → String
  | .mk d _ _ _ _ => d

/-- Field accessor for `Error.Code`. -/
def Error.Code : Error → ErrCode
  | .mk _ c _ _ _ => c

/-- Field accessor for `Error.Info`. -/
def Error.Info : Error → ErrInfo
  | .mk _ _ i _ _ => i

/-- Field accessor for `Error.Context`. -/
def Error.Context : Error → String
  | .mk _ _ _ ctx _ => ctx

/-- Field accessor for `Error.Inner`. -/
def Error.Inner : Error → Option Error
  | .mk _ _ _ _ inner => inner

/-- Go declaration `type FormatFunc func` from `Error` to string;
`none` models a panic inside the formatter. -/
abbrev FormatFunc := Error → Option String

/-- The process-wide `domains` table, `map[string]FormatFunc`. -/
abbrev Registry := List (String × FormatFunc)

/-- Registry lookup `domains[name]`. -/
def regLookup : Registry → String → Option FormatFunc
  | [], _ => none
  | (n, f) :: rest, name => if n = name then some f else regLookup rest name

/-- Registration `DomainFunc(name, fn)`: register `fn` under `name`; a collision is a
panic (`none`). -/
def DomainFunc (reg : Registry) (name : String) (fn : FormatFunc) :
    Option Registry :=
  match regLookup reg name with
  | some _ => none
  | none => some ((name, fn) :: reg)

/-- The built-in formatter for the `"go"` domain registered in `init`:
`"Error: " + err.Info["_err"].(string)`; the type assertion panics
(`none`) unless `Info["_err"]` is a string. -/
def goFormat : FormatFunc := fun e =>
  match infoLookup e.Info "_err" with
  | some (.str s) => some ("Error: " ++ s)
  | _ => none

/-- The registry state after `init` has run: just the `"go"` domain. -/
def initRegistry : Registry := [("go", goFormat)]

/-- Go declaration `type DomainMap map` from codes to template text. -/
abbrev DomainMap := List (ErrCode × String)

/-- Lookup of the template text of a code in a `DomainMap`. -/
def dmLookup : DomainMap → ErrCode → Option String
  | [], _ => none
  | (c, t) :: rest, code => if c = code then some t else dmLookup rest code

/-- The `FormatFunc` that `Domain(name, domain)` builds: look up the
compiled template of the code; absent code yields `"Unknown error"`, present
code executes the template against `Info` (`render` is the external
`text/template` engine; its `none` is the execution-error panic). -/
def domainFormat (render : String → ErrInfo → Option String)
    (dm : DomainMap) : FormatFunc := fun e =>
  match dmLookup dm e.Code with
  | none => some "Unknown error"
  | some t => render t e.Info

/-- Declarative registration `Domain(name, domain)`, delegating to
`DomainFunc` with the compiled formatter. -/
def Domain (render : String → ErrInfo → Option String) (reg : Registry)
    (name : String) (dm : DomainMap) : Option Registry :=
  DomainFunc reg name (domainFormat render dm)

/-- Rendering method `Message()`: look up the domain of the error; registered domains delegate
to their `FormatFunc`, an unregistered domain renders the fixed
`"Domain missing: [<domain>:<code>] <Info>"` fallback. -/
def Message (reg : Registry) (e : Error) : Option String :=
  match regLookup reg e.Domain with
  | some f => f e
  | none =>
      some ("Domain missing: [" ++ e.Domain ++ ":" ++ toString e.Code
            ++ "] " ++ fmtInfo e.Info)

/-- Rendering method `Error()`: full diagnostic text — the block
`"[<domain>:<code>] <message>\n<context>"` of the current link, preceded (after a
newline) by the recursively rendered inner chain. -/
def Error.Error (reg : Registry) : Error → Option String
  | .mk d c i ctx inner => do
      let msg ← Message reg (.mk d c i ctx inner)
      let str := "[" ++ d ++ ":" ++ toString c ++ "] " ++ msg ++ "\n" ++ ctx
      match inner with
      | none => pure str
      | some ie => do
          let innerStr ← Error.Error reg ie
          pure (innerStr ++ "\n" ++ str)

/-- Chaining `Chain(inner, err)`: set `err.Inner = inner` and return `err`. -/
def Chain (inner : Error) : Error → Error
  | .mk d c i ctx _ => .mk d c i ctx (some inner)

/-- Traversal `Cause(err)`: follow `Inner` to the terminal link. -/
def Cause : Error → Error
  | .mk d c i ctx none => .mk d c i ctx none
  | .mk _ _ _ _ (some inner) => Cause inner

/-- The key/value pairing loop of `New`/`Make`: `name` is the pending
key (the Go zero value `""` means no pending key); a non-string argument
in key position is a panicking type assertion (`none`). -/
def infoLoop (info : ErrInfo) (name : String) : List Val → Option ErrInfo
  | [] => some info
  | arg :: rest =>
      if name = "" then
        match arg with
        | .str s => infoLoop info s rest
        | _ => none
      else
        infoLoop (infoInsert info name arg) "" rest

/-- Constructor `New(skip, domain, code, args...)`: build the error with a stack
context captured at `skip+2` and `Info` populated by the pairing loop. -/
def New (stackTrace : Int → String) (skip : Int) (domain : String)
    (code : ErrCode) (args : List Val) : Option Error :=
  (infoLoop [] "" args).map fun info =>
    .mk domain code info (stackTrace (skip + 2)) none

/-- Constructor `Make` (the second copy of the source) is textually
identical to `New` up to the receiver name. -/
def Make (stackTrace : Int → String) (skip : Int) (domain : String)
    (code : ErrCode) (args : List Val) : Option Error :=
  New stackTrace skip domain code args

/-- Helper `_Wrap(skip, err, args...)`: prepend the reserved `"_err"` pair to
the caller-supplied extras and construct in the `"go"` domain with code 0. -/
def _Wrap (stackTrace : Int → String) (skip : Int) (msg : String)
    (args : List Val) : Option Error :=
  New stackTrace (skip + 1) "go" 0 (.str "_err" :: .str msg :: args)

/-- The possible non-nil shapes of the dynamically typed argument of
`Wrap`: an existing `*Error`, a native Go `error` (identified by its
message text), or an arbitrary value (stringified by `fmt.Errorf`). -/
inductive WrapInput where
  | err (e : Error)
  | goErr (msg : String)
  | other (v : Val)

/-- Normalization `Wrap(x, args...)`: `nil` stays nil (`some none`), an `Error` is
returned unchanged, anything else goes through `_Wrap`. The outer
`Option` is a panic in the pairing loop; the inner `Option` is the
nilability of the returned `*Error`. -/
def Wrap (stackTrace : Int → String) (x : Option WrapInput)
    (args : List Val) : Option (Option Error) :=
  match x with
  | none => some none
  | some (.err e) => some (some e)
  | some (.goErr m) => (_Wrap stackTrace 1 m args).map some
  | some (.other v) => (_Wrap stackTrace 1 (fmtVal v) args).map some

/-- The links of a chain, innermost (root cause) first. -/
def links : Error → List Error
  | .mk d c i ctx none => [.mk d c i ctx none]
  | .mk d c i ctx (some inner) => links inner ++ [.mk d c i ctx (some inner)]

/-- The number of links in a chain. -/
def chainLen : Error → Nat
  | .mk _ _ _ _ none => 1
  | .mk _ _ _ _ (some inner) => chainLen inner + 1

/-- One rendered block of the full-text output, exactly as `Error()`
builds it, with `msgOf` supplying the message of each link. -/
def block (msgOf : Error → String) (l : Error) : String :=
  "[" ++ l.Domain ++ ":" ++ toString l.Code ++ "] " ++ msgOf l ++ "\n"
    ++ l.Context

/-- Flatten a list of key/value pairs into the flat variadic argument
list that `New`/`Make`/`Wrap` accept. -/
def flattenPairs (ps : List (String × Val)) : List Val :=
  ps.foldr (fun p acc => Val.str p.1 :: p.2 :: acc) []

/-- Fold a list of key/value pairs into an `ErrInfo` map by successive
map writes. -/
def insertAll (i : ErrInfo) (ps : List (String × Val)) : ErrInfo :=
  ps.foldl (fun acc p => infoInsert acc p.1 p.2) i

/-- Modelled from the spec (the claim wording for the pairing rule):
each even-position argument is a string key and the following argument
its value; an odd trailing argument is dropped; a non-string key is a
panic. -/
def claimPairs : List Val → Option (List (String × Val))
  | [] => some []
  | [_] => some []
  | arg :: v :: rest =>
      match arg with
      | .str k => (claimPairs rest).map (fun ps => (k, v) :: ps)
      | _ => none

/-- Modelled from the spec: the `Info` map the claim wording predicts,
namely exactly the complete pairs of the argument list. -/
def claimInfo (args : List Val) : Option ErrInfo :=
  (claimPairs args).map (insertAll [])


/-! ### Helper lemmas -/

/-- Looking up a key distinct from the one just written is unchanged. -/
theorem infoLookup_insert_ne (i : ErrInfo) (k k2 : String) (v : Val)
    (h : k ≠ k2) : infoLookup (infoInsert i k v) k2 = infoLookup i k2 := by
  induction i with
  | nil => simp [infoInsert, infoLookup, h]
  | cons p rest ih =>
      obtain ⟨pk, pv⟩ := p
      by_cases hk : pk = k
      · subst hk
        simp [infoInsert, infoLookup, h]
      · simp [infoInsert, infoLookup, hk]
        by_cases hk2 : pk = k2 <;> simp [hk2, ih]

/-- Folding in pairs whose keys avoid `k` leaves the entry at `k`
unchanged. -/
theorem infoLookup_insertAll_notMem (ps : List (String × Val)) :
    ∀ (i : ErrInfo) (k : String), k ∉ ps.map Prod.fst →
      infoLookup (insertAll i ps) k = infoLookup i k := by
  induction ps with
  | nil => intro i k _; rfl
  | cons p rest ih =>
      intro i k hk
      simp only [List.map_cons, List.mem_cons] at hk
      push_neg at hk
      have h1 : infoLookup (infoInsert i p.1 p.2) k = infoLookup i k :=
        infoLookup_insert_ne i p.1 k p.2 (fun h => hk.1 h.symm)
      simpa [insertAll, List.foldl_cons] using (ih (infoInsert i p.1 p.2) k hk.2).trans h1

/-- The pairing loop on a flattened pair list followed by a tail: each
non-empty key pairs with its value. -/
theorem infoLoop_flattenPairs (ps : List (String × Val)) :
    ∀ (i : ErrInfo) (tail : List Val), (∀ p ∈ ps, p.1 ≠ "") →
      infoLoop i "" (flattenPairs ps ++ tail) = infoLoop (insertAll i ps) "" tail := by
  induction ps with
  | nil => intro i tail _; rfl
  | cons p rest ih =>
      intro i tail hk
      obtain ⟨k, v⟩ := p
      have hk0 : k ≠ "" := hk (k, v) (List.mem_cons_self _ _)
      have hrest : ∀ q ∈ rest, q.1 ≠ "" := fun q hq => hk q (List.mem_cons_of_mem _ hq)
      simp only [flattenPairs, List.foldr_cons, List.cons_append]
      show infoLoop i "" (Val.str k :: v :: (flattenPairs rest ++ tail)) = _
      rw [infoLoop, if_pos rfl]
      show infoLoop i k (v :: (flattenPairs rest ++ tail)) = _
      cases v with
      | str s =>
          rw [infoLoop, if_neg hk0, ih (infoInsert i k (.str s)) tail hrest]
          rfl
      | int n =>
          rw [infoLoop, if_neg hk0, ih (infoInsert i k (.int n)) tail hrest]
          rfl
          simp

/-- The pairing loop drops a dangling string key. -/
theorem infoLoop_dangling (i : ErrInfo) (k : String) :
    infoLoop i "" [Val.str k] = some i := by
  rw [infoLoop, if_pos rfl]
  rfl

/-- A chain always has at least one link. -/
theorem links_ne_nil (e : Error) : links e ≠ [] := by
  cases e with
  | mk d c i ctx inner =>
      cases inner <;> simp [links]

/-- Joining after appending a final element. -/
theorem joinSep_append_singleton (sep x : String) (l : List String)
    (h : l ≠ []) : joinSep sep (l ++ [x]) = joinSep sep l ++ sep ++ x := by
  induction l with
  | nil => exact absurd rfl h
  | cons a rest ih =>
      cases rest with
      | nil => simp [joinSep]
      | cons b t =>
          have h2 := ih (by simp)
          simp only [List.cons_append] at h2 ⊢
          calc joinSep sep (a :: b :: (t ++ [x]))
              = a ++ sep ++ joinSep sep (b :: (t ++ [x])) := rfl
            _ = a ++ sep ++ (joinSep sep (b :: t) ++ sep ++ x) := by rw [h2]
            _ = (a ++ sep ++ joinSep sep (b :: t)) ++ sep ++ x := by
                  simp [String.append_assoc]
            _ = joinSep sep (a :: b :: t) ++ sep ++ x := rfl

/-- If every joined string ends in a newline, a newline-joined list is
the same as a blank-line-joined list of the trimmed strings followed by
one final newline. -/
theorem joinSep_newline (f g : Error → String) (ls : List Error)
    (hfg : ∀ l ∈ ls, f l = g l ++ "\n") (h : ls ≠ []) :
    joinSep "\n" (ls.map f) = joinSep ("\n" ++ "\n") (ls.map g) ++ "\n" := by
  induction ls with
  | nil => exact absurd rfl h
  | cons a rest ih =>
      cases rest with
      | nil => simpa [joinSep] using hfg a (List.mem_cons_self _ _)
      | cons b t =>
          have ha : f a = g a ++ "\n" := hfg a (List.mem_cons_self _ _)
          have hrest : ∀ l ∈ b :: t, f l = g l ++ "\n" :=
            fun l hl => hfg l (List.mem_cons_of_mem _ hl)
          have := ih hrest (by simp)
          simp only [List.map_cons] at this ⊢
          rw [show joinSep "\n" (f a :: f b :: (t.map f)) =
                f a ++ "\n" ++ joinSep "\n" (f b :: t.map f) from rfl]
          rw [show joinSep ("\n" ++ "\n") (g a :: g b :: (t.map g)) =
                g a ++ ("\n" ++ "\n") ++ joinSep ("\n" ++ "\n") (g b :: t.map g) from rfl]
          rw [this, ha]
          simp [String.append_assoc]

/-- The root of a chain has no inner link. -/
theorem cause_inner_none : ∀ e : Error, (Cause e).Inner = none
  | .mk d c i ctx none => by simp [Cause, Error.Inner]
  | .mk d c i ctx (some inner) => by
      rw [Cause]
      exact cause_inner_none inner

/-- Every link of a chain has the same root cause as the whole chain. -/
theorem cause_links : ∀ e : Error, ∀ l ∈ links e, Cause l = Cause e
  | .mk d c i ctx none => by
      intro l hl
      simp only [links, List.mem_singleton] at hl
      subst hl
      rfl
  | .mk d c i ctx (some inner) => by
      intro l hl
      rw [links] at hl
      rcases List.mem_append.mp hl with h | h
      · rw [Cause]
        exact cause_links inner l h
      · simp only [List.mem_singleton] at h
        subst h
        rfl

/-- A concrete stack capturer used by the witnesses below. -/
def stubTrace : Int → String := fun _ => ""

/-- The innermost link of the concrete three-link witness chain. -/
def cInner : Error := .mk "go" 0 [("_err", .str "a")] "ca\n" none

/-- The middle link of the concrete witness chain. -/
def cMid : Error := Chain cInner (.mk "go" 1 [("_err", .str "b")] "cb\n" none)

/-- The outermost link of the concrete witness chain. -/
def cOuter : Error := Chain cMid (.mk "go" 2 [("_err", .str "c")] "cc\n" none)

/-! ### Claims -/

/-- **C3.** For every finite chain `Cause` returns the unique terminal
link whose `Inner` is absent; applied to any link of the same chain it
returns that same innermost link; on a chain of length one it returns
its argument; and on a chain freshly extended by `Chain` it returns the
root cause of the predecessor. (Termination is by construction: `Cause`
is a total structurally recursive function.) -/
theorem cause_root (e : Error) :
    (Cause e).Inner = none
    ∧ (e.Inner = none → Cause e = e)
    ∧ (∀ l ∈ links e, Cause l = Cause e)
    ∧ (∀ i, Cause (Chain i e) = Cause i) := by
  refine ⟨cause_inner_none e, ?_, cause_links e, ?_⟩
  · intro h
    cases e with
    | mk d c i ctx inner =>
        cases inner with
        | none => rfl
        | some ie => simp [Error.Inner] at h
  · intro i
    cases e with
    | mk d c i2 ctx inner =>
        rw [Chain, Cause]

/-- Witness for **C3** on the concrete three-link chain. -/
theorem cause_root_witness :
    Cause cInner = cInner ∧ Cause cMid = Cause cOuter ∧ Cause cOuter = cInner := by
  refine ⟨(cause_root cInner).2.1 rfl,
          (cause_root cOuter).2.2.1 cMid ?_, ?_⟩
  · simp [cOuter, cMid, cInner, Chain, links]
  · simp [cOuter, cMid, cInner, Chain, Cause]

/-- **C5.** `Wrap` on a value that is already an `Error` returns that
same instance unchanged for any extra arguments, and `Wrap` is
idempotent: rewrapping the result of a successful `Wrap` returns it
unchanged. -/
theorem wrap_error_identity :
    (∀ (st : Int → String) (e : Error) (args : List Val),
        Wrap st (some (.err e)) args = some (some e))
    ∧ (∀ (st st2 : Int → String) (x : Option WrapInput)
         (args args2 : List Val) (r : Error),
        Wrap st x args = some (some r) →
        Wrap st2 (some (.err r)) args2 = some (some r)) :=
  ⟨fun _ _ _ => rfl, fun _ _ _ _ _ _ _ => rfl⟩

/-- Witness for **C5**: rewrapping a concrete wrapped foreign error. -/
theorem wrap_error_identity_witness :
    Wrap stubTrace (some (.err cInner)) [Val.int 7] = some (some cInner)
    ∧ Wrap stubTrace
        (some (.err (Error.mk "go" 0 [("_err", .str "boom")] "" none))) []
      = some (some (Error.mk "go" 0 [("_err", .str "boom")] "" none)) :=
  ⟨wrap_error_identity.1 stubTrace cInner [Val.int 7],
   wrap_error_identity.2 stubTrace stubTrace (some (.goErr "boom")) [] []
     (Error.mk "go" 0 [("_err", .str "boom")] "" none) rfl⟩

/-- **C6.** `Wrap` of nil is nil, and this is the only nil-producing
path: `Wrap` of any non-nil input never returns nil, and every
successful `New`/`Make` yields a concretely constructed (hence non-nil)
`Error` record. -/
theorem wrap_nil_unique :
    (∀ (st : Int → String) (args : List Val), Wrap st none args = some none)
    ∧ (∀ (st : Int → String) (x : WrapInput) (args : List Val),
        Wrap st (some x) args ≠ some none)
    ∧ (∀ (st : Int → String) (skip : Int) (d : String) (c : ErrCode)
         (args : List Val) (info : ErrInfo),
        infoLoop [] "" args = some info →
        Make st skip d c args = some (Error.mk d c info (st (skip + 2)) none)) := by
  refine ⟨fun _ _ => rfl, ?_, ?_⟩
  · intro st x args h
    cases x with
    | err e => simp [Wrap] at h
    | goErr m =>
        cases hw : _Wrap st 1 m args <;> simp [Wrap, hw] at h
    | other v =>
        cases hw : _Wrap st 1 (fmtVal v) args <;> simp [Wrap, hw] at h
  · intro st skip d c args info h
    simp [Make, New, h]

/-- Witness for **C6**: nil in, nil out; a non-nil input; a concrete
successful construction. -/
theorem wrap_nil_unique_witness :
    Wrap stubTrace none [] = some none
    ∧ Wrap stubTrace (some (.goErr "x")) [] ≠ some none
    ∧ Make stubTrace 0 "d" 3 [Val.str "k", Val.int 9]
        = some (Error.mk "d" 3 [("k", Val.int 9)] "" none) :=
  ⟨wrap_nil_unique.1 stubTrace [],
   wrap_nil_unique.2.1 stubTrace (.goErr "x") [],
   wrap_nil_unique.2.2 stubTrace 0 "d" 3 [Val.str "k", Val.int 9]
     [("k", Val.int 9)] rfl⟩

/-- **C7.** `Message` on an `Error` whose domain is not registered does
not fail but returns exactly the fallback text
`"Domain missing: [<domain>:<code>] <Info>"` with the info map rendered
as a key-sorted listing. -/
theorem message_domain_missing (reg : Registry) (e : Error)
    (h : regLookup reg e.Domain = none) :
    Message reg e = some ("Domain missing: [" ++ e.Domain ++ ":"
      ++ toString e.Code ++ "] " ++ fmtInfo e.Info) := by
  unfold Message
  rw [h]

/-- Witness for **C7**: the spec example — domain `"x"`, code 1, info
mapping `arg` to `x` renders `Domain missing: [x:1] map[arg:x]`. -/
theorem message_domain_missing_witness :
    Message initRegistry (Error.mk "x" 1 [("arg", .str "x")] "" none)
      = some "Domain missing: [x:1] map[arg:x]" := by
  rw [message_domain_missing initRegistry
        (Error.mk "x" 1 [("arg", .str "x")] "" none) rfl]
  rfl

/-- **C8.** `Chain(inner, outer)` returns the outer `Error` with its
`Inner` field pointing at the given predecessor exactly as passed
(so the predecessor and its whole chain are untouched), while every
other field of the outer `Error` keeps its value. -/
theorem chain_frame (inner outer : Error) :
    (Chain inner outer).Domain = outer.Domain
    ∧ (Chain inner outer).Code = outer.Code
    ∧ (Chain inner outer).Info = outer.Info
    ∧ (Chain inner outer).Context = outer.Context
    ∧ (Chain inner outer).Inner = some inner := by
  cases outer with
  | mk d c i ctx inn =>
      simp [Chain, Error.Domain, Error.Code, Error.Info, Error.Context,
            Error.Inner]

/-- **C10.** The built-in `"go"` formatter extracts `Info["_err"]` with
an unchecked string assertion: `Message` on a `"go"`-domain `Error`
panics (models as `none`) whenever `Info["_err"]` is not a string, and
returns `"Error: " ++ s` when it is the string `s`. -/
theorem go_domain_panic (e : Error) (hd : e.Domain = "go") :
    ((∀ s, infoLookup e.Info "_err" ≠ some (.str s)) →
        Message initRegistry e = none)
    ∧ (∀ s, infoLookup e.Info "_err" = some (.str s) →
        Message initRegistry e = some ("Error: " ++ s)) := by
  have hreg : regLookup initRegistry e.Domain = some goFormat := by
    rw [hd]
    rfl
  constructor
  · intro h
    unfold Message
    rw [hreg]
    cases hl : infoLookup e.Info "_err" with
    | none => simp [goFormat, hl]
    | some v =>
        cases v with
        | str s => exact absurd hl (h s)
        | int n => simp [goFormat, hl]
  · intro s hl
    unfold Message
    rw [hreg]
    simp [goFormat, hl]

/-- Witness for **C10**: a `"go"`-domain error built directly by `Make`
with no arguments panics in `Message`, while a wrapped one renders. -/
theorem go_domain_panic_witness :
    Make stubTrace 0 "go" 5 [] = some (Error.mk "go" 5 [] "" none)
    ∧ Message initRegistry (Error.mk "go" 5 [] "" none) = none
    ∧ Message initRegistry (Error.mk "go" 0 [("_err", .str "boom")] "" none)
        = some "Error: boom" := by
  refine ⟨rfl,
          (go_domain_panic (Error.mk "go" 5 [] "" none) rfl).1 ?_,
          (go_domain_panic (Error.mk "go" 0 [("_err", .str "boom")] "" none)
            rfl).2 "boom" rfl⟩
  intro s h
  simp [Error.Info, infoLookup] at h

/-- **C4.** `Wrap` on a non-nil input that is not already an `Error` —
a native error or an arbitrary value — produces an `Error` in the
fallback domain `"go"` with code 0 whose `Info` is built from the
reserved `"_err"` pair (carrying the message or string form of the
input) followed by the caller-supplied extras; in particular
`Info["_err"]` holds that text whenever no extra pair overwrites it. -/
theorem wrap_foreign (st : Int → String) (pairs : List (String × Val))
    (hk : ∀ p ∈ pairs, p.1 ≠ "") :
    (∀ m : String,
        Wrap st (some (.goErr m)) (flattenPairs pairs)
          = some (some (Error.mk "go" 0 (insertAll [("_err", .str m)] pairs)
              (st (1 + 1 + 2)) none))
        ∧ ("_err" ∉ pairs.map Prod.fst →
            infoLookup (insertAll [("_err", .str m)] pairs) "_err"
              = some (.str m)))
    ∧ (∀ v : Val,
        Wrap st (some (.other v)) (flattenPairs pairs)
          = some (some (Error.mk "go" 0
              (insertAll [("_err", .str (fmtVal v))] pairs)
              (st (1 + 1 + 2)) none))) := by
  have key : ∀ m : String,
      infoLoop [] "" (Val.str "_err" :: Val.str m :: flattenPairs pairs)
        = some (insertAll [("_err", Val.str m)] pairs) := by
    intro m
    have h0 : infoLoop [] "" (Val.str "_err" :: Val.str m :: flattenPairs pairs)
        = infoLoop [("_err", Val.str m)] "" (flattenPairs pairs) := rfl
    have h1 := infoLoop_flattenPairs pairs [("_err", Val.str m)] [] hk
    rw [List.append_nil] at h1
    rw [h0, h1]
    rfl
  refine ⟨fun m => ⟨?_, ?_⟩, fun v => ?_⟩
  · show (_Wrap st 1 m (flattenPairs pairs)).map some = _
    unfold _Wrap New
    rw [key m]
    rfl
  · intro hmem
    rw [infoLookup_insertAll_notMem pairs [("_err", Val.str m)] "_err" hmem]
    rfl
  · show (_Wrap st 1 (fmtVal v) (flattenPairs pairs)).map some = _
    unfold _Wrap New
    rw [key (fmtVal v)]
    rfl

/-- Witness for **C4**: wrapping a native error with one extra pair and
wrapping an arbitrary integer value. -/
theorem wrap_foreign_witness :
    Wrap stubTrace (some (.goErr "boom")) [Val.str "a", Val.int 1]
      = some (some (Error.mk "go" 0
          [("_err", .str "boom"), ("a", .int 1)] "" none))
    ∧ Wrap stubTrace (some (.other (Val.int 42))) []
      = some (some (Error.mk "go" 0 [("_err", .str "42")] "" none)) := by
  have h := wrap_foreign stubTrace [("a", Val.int 1)] (by decide)
  have h2 := wrap_foreign stubTrace [] (by decide)
  refine ⟨?_, ?_⟩
  · have h3 := (h.1 "boom").1
    simpa [flattenPairs, insertAll, infoInsert, stubTrace] using h3
  · have h3 := h2.2 (Val.int 42)
    simpa [flattenPairs, insertAll, infoInsert, fmtVal, stubTrace] using h3

/-- The claim-side pairing agrees with a flattened pair list. -/
theorem claimPairs_flattenPairs :
    ∀ pairs : List (String × Val), claimPairs (flattenPairs pairs) = some pairs
  | [] => rfl
  | (k, v) :: rest => by
      show claimPairs (Val.str k :: v :: flattenPairs rest) = _
      rw [claimPairs, claimPairs_flattenPairs rest]
      rfl

/-- **C9 counterexample.** At the argument list `["", "v"]` — two
string arguments, so the claim predicts the pair `("", "v")` in `Info` —
the code leaves `Info` empty: the empty string key coincides with the
sentinel for "no pending key", so it is skipped and the following
argument is consumed as the next key. -/
theorem make_pairing_counterexample :
    (Make stubTrace 0 "d" 0 [Val.str "", Val.str "v"]).map Error.Info
      ≠ claimInfo [Val.str "", Val.str "v"]
    ∧ (Make stubTrace 0 "d" 0 [Val.str "", Val.str "v"]).map Error.Info
      = some []
    ∧ claimInfo [Val.str "", Val.str "v"] = some [("", Val.str "v")] := by
  refine ⟨?_, rfl, rfl⟩
  decide

/-- **C9 amended.** Provided every key in the argument list is a
non-empty string, `Make` (and the identical constructor `New`) builds
`Info` by pairing consecutive arguments exactly as the claim words it
(`claimInfo`), and an odd trailing string argument is silently dropped;
an empty-string key is instead consumed without pairing. -/
theorem make_pairing_amended (st : Int → String) (skip : Int) (d : String)
    (c : ErrCode) (pairs : List (String × Val))
    (hk : ∀ p ∈ pairs, p.1 ≠ "") :
    (Make st skip d c (flattenPairs pairs)).map Error.Info
        = claimInfo (flattenPairs pairs)
    ∧ (Make st skip d c (flattenPairs pairs)).map Error.Info
        = some (insertAll [] pairs)
    ∧ (∀ k : String,
        (Make st skip d c (flattenPairs pairs ++ [Val.str k])).map Error.Info
          = some (insertAll [] pairs))
    ∧ Make st skip d c (flattenPairs pairs)
        = New st skip d c (flattenPairs pairs) := by
  have hbase : infoLoop [] "" (flattenPairs pairs) = some (insertAll [] pairs) := by
    have h1 := infoLoop_flattenPairs pairs [] [] hk
    rw [List.append_nil] at h1
    rw [h1]
    rfl
  have hmain : (Make st skip d c (flattenPairs pairs)).map Error.Info
      = some (insertAll [] pairs) := by
    unfold Make New
    rw [hbase]
    rfl
  refine ⟨?_, hmain, ?_, rfl⟩
  · rw [hmain]
    unfold claimInfo
    rw [claimPairs_flattenPairs pairs]
    rfl
  · intro k
    unfold Make New
    rw [infoLoop_flattenPairs pairs [] [Val.str k] hk, infoLoop_dangling]
    rfl

/-- Witness for **C9** (amended): a complete pair, with and without a
dangling odd argument. -/
theorem make_pairing_amended_witness :
    (Make stubTrace 0 "ergo" 2 [Val.str "name", Val.str "x"]).map Error.Info
      = some [("name", Val.str "x")]
    ∧ (Make stubTrace 0 "ergo" 2
        [Val.str "name", Val.str "x", Val.str "odd"]).map Error.Info
      = some [("name", Val.str "x")] := by
  have h := make_pairing_amended stubTrace 0 "ergo" 2 [("name", Val.str "x")]
    (by decide)
  refine ⟨?_, ?_⟩
  · have h2 := h.2.1
    simpa [flattenPairs, insertAll, infoInsert] using h2
  · have h2 := h.2.2.1 "odd"
    simpa [flattenPairs, insertAll, infoInsert] using h2

/-- **C1.** After a successful `Domain(name, domainMap)` registration,
`Message` on an `Error` of that domain renders the template of its code
against its `Info` when the code is in the map and the literal
`"Unknown error"` otherwise; hence an `Error` built by
`Make(_, name, c, pairs...)` renders the template text of `c` against
the supplied pairs. -/
theorem domain_registration_message
    (render : String → ErrInfo → Option String) (reg reg2 : Registry)
    (name : String) (dm : DomainMap)
    (hreg : Domain render reg name dm = some reg2) :
    (∀ e : Error, e.Domain = name →
        (dmLookup dm e.Code = none → Message reg2 e = some "Unknown error")
        ∧ (∀ T, dmLookup dm e.Code = some T → Message reg2 e = render T e.Info))
    ∧ (∀ (st : Int → String) (skip : Int) (c : ErrCode)
         (pairs : List (String × Val)) (T : String),
        (∀ p ∈ pairs, p.1 ≠ "") → dmLookup dm c = some T →
        ∃ e, Make st skip name c (flattenPairs pairs) = some e
          ∧ Message reg2 e = render T (insertAll [] pairs)) := by
  have hr2 : reg2 = (name, domainFormat render dm) :: reg := by
    unfold Domain DomainFunc at hreg
    cases hl : regLookup reg name with
    | some f => simp [hl] at hreg
    | none =>
        rw [hl] at hreg
        exact (Option.some.inj hreg).symm
  have hlook : regLookup reg2 name = some (domainFormat render dm) := by
    rw [hr2]
    simp [regLookup]
  constructor
  · intro e hd
    have hle : regLookup reg2 e.Domain = some (domainFormat render dm) := by
      rw [hd]
      exact hlook
    constructor
    · intro hnone
      unfold Message
      rw [hle]
      simp [domainFormat, hnone]
    · intro T hT
      unfold Message
      rw [hle]
      simp [domainFormat, hT]
  · intro st skip c pairs T hk hT
    have hbase : infoLoop [] "" (flattenPairs pairs)
        = some (insertAll [] pairs) := by
      have h1 := infoLoop_flattenPairs pairs [] [] hk
      rw [List.append_nil] at h1
      rw [h1]
      rfl
    refine ⟨Error.mk name c (insertAll [] pairs) (st (skip + 2)) none, ?_, ?_⟩
    · unfold Make New
      rw [hbase]
      rfl
    · unfold Message
      have hle : regLookup reg2
          (Error.Domain (Error.mk name c (insertAll [] pairs) (st (skip + 2)) none))
          = some (domainFormat render dm) := hlook
      rw [hle]
      simp [domainFormat, Error.Code, Error.Info, hT]

/-- A concrete renderer (ignores the info map) used by the witness. -/
def renderConst : String → ErrInfo → Option String := fun t _ => some t

/-- The witness domain map, mirroring the test suite of the repository. -/
def ergoMap : DomainMap := [(0, "My error 0"), (1, "My error 1")]

/-- The registry after registering `"ergo"` on top of `init`. -/
def ergoReg : Registry :=
  ("ergo", domainFormat renderConst ergoMap) :: initRegistry

/-- Witness for **C1**: a registered code renders its template, an
unknown code renders `"Unknown error"`, and a `Make`-built error of the
registered domain renders its template. -/
theorem domain_registration_message_witness :
    Message ergoReg (Error.mk "ergo" 0 [] "" none) = some "My error 0"
    ∧ Message ergoReg (Error.mk "ergo" 9 [] "" none) = some "Unknown error"
    ∧ ∃ e, Make stubTrace 0 "ergo" 1 [] = some e
        ∧ Message ergoReg e = some "My error 1" := by
  have h := domain_registration_message renderConst initRegistry ergoReg
    "ergo" ergoMap rfl
  refine ⟨?_, ?_, ?_⟩
  · have h2 := (h.1 (Error.mk "ergo" 0 [] "" none) rfl).2 "My error 0" rfl
    simpa [renderConst] using h2
  · exact (h.1 (Error.mk "ergo" 9 [] "" none) rfl).1 rfl
  · obtain ⟨e, he, hm⟩ := h.2 stubTrace 0 1 [] "My error 1" (by simp) rfl
    refine ⟨e, ?_, ?_⟩
    · simpa [flattenPairs] using he
    · simpa [renderConst] using hm

/-- A chain has as many links as its length. -/
theorem links_length : ∀ e : Error, (links e).length = chainLen e
  | .mk d c i ctx none => by simp [links, chainLen]
  | .mk d c i ctx (some ie) => by
      rw [links, chainLen]
      simp [links_length ie]

/-- The first link is the root cause. -/
theorem links_head : ∀ e : Error, (links e).head? = some (Cause e)
  | .mk d c i ctx none => by simp [links, Cause]
  | .mk d c i ctx (some ie) => by
      rw [links, Cause]
      have h1 := links_head ie
      obtain ⟨a, t, ht⟩ := List.exists_cons_of_ne_nil (links_ne_nil ie)
      rw [ht] at h1 ⊢
      simpa using h1

/-- The last link is the outermost error itself. -/
theorem links_getLast : ∀ e : Error, (links e).getLast? = some e
  | .mk d c i ctx none => by simp [links]
  | .mk d c i ctx (some ie) => by
      rw [links]
      simp

/-- The full-text renderer produces the newline-joined sequence of
per-link blocks, innermost first, whenever every message of the chain
renders. -/
theorem errorText_links (reg : Registry) (msgOf : Error → String) :
    ∀ e : Error, (∀ l ∈ links e, Message reg l = some (msgOf l)) →
      Error.Error reg e = some (joinSep "\n" ((links e).map (block msgOf)))
  | .mk d c i ctx none => by
      intro hm
      have hmsg := hm (.mk d c i ctx none) (by simp [links])
      rw [Error.Error, hmsg]
      simp [links, joinSep, block, Error.Domain, Error.Code, Error.Info,
        Error.Context]
  | .mk d c i ctx (some ie) => by
      intro hm
      have hself : (Error.mk d c i ctx (some ie))
          ∈ links (Error.mk d c i ctx (some ie)) := by
        rw [links]
        exact List.mem_append_right _ (by simp)
      have hmsg := hm _ hself
      have hmi : ∀ l ∈ links ie, Message reg l = some (msgOf l) := by
        intro l hl
        refine hm l ?_
        rw [links]
        exact List.mem_append_left _ hl
      have ih := errorText_links reg msgOf ie hmi
      rw [Error.Error, hmsg]
      rw [links, List.map_append]
      simp only [List.map_cons, List.map_nil]
      rw [joinSep_append_singleton "\n"
            (block msgOf (.mk d c i ctx (some ie)))
            ((links ie).map (block msgOf))
            (by
              intro hnil
              exact links_ne_nil ie (List.map_eq_nil_iff.mp hnil))]
      simp [ih, block, Error.Domain, Error.Code, Error.Info, Error.Context,
        String.append_assoc]

/-- **C2.** For every finite chain whose messages all render, the
full-text renderer `Error()` produces exactly one block per link —
`"[<domain>:<code>] <message>"` on the first line followed by the
context of that link — joined innermost (root cause) first with single
newlines; the chain has as many blocks as links, starts at the root
cause and ends at the outermost error; and when every context ends in a
newline (as captured stack traces do), the text is equivalently the
blocks with trimmed contexts separated by a blank line, with one final
newline. -/
theorem error_chain_blocks (reg : Registry) (msgOf : Error → String)
    (e : Error) (hm : ∀ l ∈ links e, Message reg l = some (msgOf l)) :
    Error.Error reg e = some (joinSep "\n" ((links e).map (block msgOf)))
    ∧ (links e).length = chainLen e
    ∧ (links e).head? = some (Cause e)
    ∧ (links e).getLast? = some e
    ∧ ∀ ctxCore : Error → String,
        (∀ l ∈ links e, l.Context = ctxCore l ++ "\n") →
        Error.Error reg e
          = some (joinSep "\n\n" ((links e).map fun l =>
              "[" ++ l.Domain ++ ":" ++ toString l.Code ++ "] " ++ msgOf l
                ++ "\n" ++ ctxCore l) ++ "\n") := by
  refine ⟨errorText_links reg msgOf e hm, links_length e, links_head e,
    links_getLast e, ?_⟩
  intro ctxCore hctx
  rw [errorText_links reg msgOf e hm]
  have hfg : ∀ l ∈ links e, block msgOf l
      = ("[" ++ l.Domain ++ ":" ++ toString l.Code ++ "] " ++ msgOf l
          ++ "\n" ++ ctxCore l) ++ "\n" := by
    intro l hl
    simp only [block]
    rw [hctx l hl]
    simp [String.append_assoc]
  have h2 := joinSep_newline (block msgOf)
    (fun l => "[" ++ l.Domain ++ ":" ++ toString l.Code ++ "] " ++ msgOf l
        ++ "\n" ++ ctxCore l) (links e) hfg (links_ne_nil e)
  rw [show ("\n" : String) ++ "\n" = "\n\n" from rfl] at h2
  rw [h2]

/-- Witness for **C2**: the concrete three-link chain renders three
blank-line-separated blocks, innermost first. -/
theorem error_chain_blocks_witness :
    Error.Error initRegistry cOuter
      = some "[go:0] Error: a\nca\n\n[go:1] Error: b\ncb\n\n[go:2] Error: c\ncc\n"
    ∧ (links cOuter).length = 3
    ∧ (links cOuter).head? = some cInner
    ∧ (links cOuter).getLast? = some cOuter := by
  have hm : ∀ l ∈ links cOuter,
      Message initRegistry l = some ((Message initRegistry l).getD "") := by
    intro l hl
    simp only [cOuter, cMid, cInner, Chain, links, List.mem_append,
      List.mem_singleton] at hl
    rcases hl with (hl | hl) | hl <;> subst hl <;> rfl
  have h := error_chain_blocks initRegistry
    (fun l => (Message initRegistry l).getD "") cOuter hm
  have hctx : ∀ l ∈ links cOuter,
      l.Context = (fun l2 : Error => l2.Context.dropRight 1) l ++ "\n" := by
    intro l hl
    simp only [cOuter, cMid, cInner, Chain, links, List.mem_append,
      List.mem_singleton] at hl
    rcases hl with (hl | hl) | hl <;> subst hl <;> rfl
  refine ⟨?_, ?_, ?_, ?_⟩
  · rw [h.2.2.2.2 (fun l2 : Error => l2.Context.dropRight 1) hctx]
    rfl
  · rw [h.2.1]
    rfl
  · rw [h.2.2.1]
    rfl
  · exact h.2.2.2.1

end Ergo
